import Mathlib

/-!
Shallow embedding of `src/engine.js` (class `VisualizerEngine`) from the
svylabs/smac-viz repository, together with theorems settling the frozen
claims about the natural-language specification.

Modelling conventions:
* JSON-serializable JavaScript values are modelled by `JValue`.
* JavaScript object literals / JSON objects are modelled as insertion-ordered
  association lists `List (String × _)`; JS guarantees key uniqueness, which
  appears as `Nodup` hypotheses where a theorem needs it.
* `JSON.parse(JSON.stringify(v))` on a JSON-serializable value is the
  structural identity on pure values (`deepCopy`); object identity (aliasing)
  is modelled separately by the reference model `RefEngine`/`Store` below.
* The action strings executed via `new Function(...)` are uninterpreted: the
  operations take a parameter `evalAction : String → JValue → JValue →
  Except String JValue`; a thrown action error is `Except.error msg`.
* `new Date().toLocaleTimeString()` is modelled by a `now : String` parameter.
* The listener list and `notify()` are modelled by returning the list of
  projection snapshots passed to listeners during the call.
* An unhandled JavaScript `TypeError` (property access on `null`/`undefined`)
  is modelled by `Except.error JsError.typeError` in the result of `send`.
-/

namespace SmacViz

/-- JSON-serializable JavaScript values (numbers restricted to integers;
no claim depends on float arithmetic). -/
inductive JValue where
  | null : JValue
  | bool : Bool → JValue
  | num : Int → JValue
  | str : String → JValue
  | arr : List JValue → JValue
  | obj : List (String × JValue) → JValue

/-- The `JSON.parse(JSON.stringify(v))` idiom: on pure JSON values it is the
structural identity; it matters only for object identity, which is modelled
in the reference model below. -/
def deepCopy (v : JValue) : JValue := v

/-- JavaScript truthiness of a JSON value (for `config.context || {}`). -/
def jsTruthy : JValue → Bool
  | .null => false
  | .bool b => b
  | .num n => n != 0
  | .str s => s != ""
  | .arr _ => true
  | .obj _ => true

/-- `TransitionDef`: value of one key of a state's `on` object. The source
field `to` is spelled `toState` here (`to` is reserved in Lean); likewise
`on` is spelled `onMap` in `StateDef`. -/
structure TransitionDef where
  toState : String
  label : Option String
  action : Option String

/-- `StateDef`: value of one key of the `states` object. `on` is optional in
the source (`generateMermaid` checks `if (stateData.on)`). -/
structure StateDef where
  label : Option String
  onMap : Option (List (String × TransitionDef))

/-- A configuration as supplied by the caller of `load` (its `states` field
may be absent, which `load` rejects). -/
structure RawConfig where
  id : Option String
  initialState : String
  context : Option JValue
  states : Option (List (String × StateDef))

/-- A configuration as stored in `this.config`: `load` only stores a config
whose `states` field is present, so here `states` is total. -/
structure Config where
  id : Option String
  initialState : String
  context : Option JValue
  states : List (String × StateDef)

/-- One element of `this.history` (`recordHistory`). `state` is the value of
`this.currentStateId` at push time, which is a nullable string. -/
structure HistoryEntry where
  timestamp : String
  state : Option String
  event : String
  context : JValue
  input : JValue

/-- The engine's own mutable fields (constructor of `VisualizerEngine`),
except the listener list, which is modelled by returned notification lists. -/
structure Engine where
  config : Option Config
  currentStateId : Option String
  previousStateId : Option String
  context : JValue
  history : List HistoryEntry
  lastEventId : Option String

/-- Engine state immediately after `new VisualizerEngine()`. -/
def initialEngine : Engine :=
  { config := none, currentStateId := none, previousStateId := none,
    context := JValue.obj [], history := [], lastEventId := none }

/-- JavaScript property lookup key for a possibly-null string: `obj[null]`
reads property `"null"`. -/
def propKey : Option String → String
  | none => "null"
  | some s => s

/-- Property lookup on a JS object modelled as an association list
(first binding wins; JS objects have unique keys). -/
def jlookup {α : Type} : List (String × α) → String → Option α
  | [], _ => none
  | p :: ps, k => if p.1 = k then some p.2 else jlookup ps k

/-- An unhandled JavaScript exception escaping an engine method. -/
inductive JsError where
  | typeError : JsError

/-- The value returned by `send`: `true`, `false`, or `{ error: msg }`. -/
inductive SendResult where
  | success : SendResult
  | noTransition : SendResult
  | actionError : String → SendResult

/-- The visual class attached to a node by `generateMermaid` (lines 114-118):
`current` if the id is `currentStateId`, else `previous` if it is
`previousStateId`, else none. -/
def nodeClass (e : Engine) (id : String) : Option String :=
  if some id = e.currentStateId then some "current"
  else if some id = e.previousStateId then some "previous"
  else none

/-- The per-state chunk of the diagram's node section: the node line plus
the optional `class` line. -/
def nodeChunk (e : Engine) (p : String × StateDef) : String :=
  let id := p.1
  let label := match p.2.label with
    | some l => l
    | none => id
  let line := s!"    {id}(\"{label}\")\n"
  match nodeClass e id with
  | some c => line ++ s!"    class {id} {c}\n"
  | none => line

/-- The node section of the diagram (the first `forEach` of
`generateMermaid`), appended onto an accumulator string. -/
def stateSection (e : Engine) (sts : List (String × StateDef)) (m0 : String) : String :=
  sts.foldl (fun m p => m ++ nodeChunk e p) m0

/-- One step of the transition-enumeration fold of `generateMermaid`
(lines 129-137): appends the edge line, records the edge index in the
active-index accumulator when source/event match
`previousStateId`/`lastEventId`, and increments the edge counter.
An edge is `(sourceId, eventId, transition)`. -/
def edgeStep (e : Engine) (acc : String × Nat × Int)
    (t : String × String × TransitionDef) : String × Nat × Int :=
  let src := t.1
  let ev := t.2.1
  let tr := t.2.2
  let label := match tr.label with
    | some l => l
    | none => ev
  let tgt := tr.toState
  let m := acc.1 ++ s!"    {src} -->|\"{label}\"| {tgt}\n"
  let act := if some src = e.previousStateId ∧ some ev = e.lastEventId
    then (acc.2.1 : Int) else acc.2.2
  (m, acc.2.1 + 1, act)

/-- The transition section of `generateMermaid` (lines 123-139): the nested
`forEach` over states and their `on` entries, threading the string, the
running `edgeIndex`, and `activeEdgeIndex` (sentinel `-1`). -/
def edgeSection (e : Engine) (sts : List (String × StateDef))
    (acc0 : String × Nat × Int) : String × Nat × Int :=
  sts.foldl (fun acc p =>
    match p.2.onMap with
    | none => acc
    | some onMap => onMap.foldl (fun acc2 q => edgeStep e acc2 (p.1, q.1, q.2)) acc) acc0

/-- The diagram text up to and including the transition lines, with the final
edge counter and active edge index, for a present config. -/
def mermaidCore (e : Engine) (cfg : Config) : String × Nat × Int :=
  let m0 := "flowchart LR\n"
    ++ "    classDef current fill:#6366f1,stroke:#fff,stroke-width:2px,color:#fff\n"
    ++ "    classDef previous fill:#10b981,stroke:#fff,stroke-width:1px,color:#fff\n\n"
  let m1 := stateSection e cfg.states m0
  edgeSection e cfg.states (m1 ++ "\n", 0, -1)

/-- `generateMermaid()` (lines 101-146): empty string with no config;
otherwise header, styled node lines, edge lines, and a `linkStyle`
directive when an active edge was found. -/
def generateMermaid (e : Engine) : String :=
  match e.config with
  | none => ""
  | some cfg =>
    let r := mermaidCore e cfg
    let act := r.2.2
    if act ≠ -1 then
      r.1 ++ s!"    linkStyle {act} stroke:#6366f1,stroke-width:4px,color:#6366f1\n"
    else r.1

/-- The object returned by `getState()` (lines 148-161). `availableEvents`
is `stateData ? stateData.on : \x7b\x7d`: when state data is missing it is the
empty mapping (`some []`), and when the state exists but has no `on` field it
is `undefined` (`none`). `context` and `history` are the live values. -/
structure Projection where
  id : Option String
  data : Option StateDef
  context : JValue
  availableEvents : Option (List (String × TransitionDef))
  mermaid : String
  history : List HistoryEntry

/-- `getState()` (lines 148-161). -/
def getState (e : Engine) : Projection :=
  let stateData := match e.config with
    | none => none
    | some cfg => jlookup cfg.states (propKey e.currentStateId)
  { id := e.currentStateId
    data := stateData
    context := e.context
    availableEvents := match stateData with
      | none => some []
      | some st => st.onMap
    mermaid := generateMermaid e
    history := e.history }

/-- `recordHistory(event, input)` (lines 88-96): pushes a snapshot entry
carrying the current state id and deep copies of context and input. -/
def recordHistory (now : String) (e : Engine) (event : String) (input : JValue) : Engine :=
  { e with history := e.history ++
      [{ timestamp := now, state := e.currentStateId, event := event,
         context := deepCopy e.context, input := deepCopy input }] }

/-- The `context || \x7b\x7d` defaulting applied by `load` before the deep copy. -/
def defaultedContext (ctx : Option JValue) : JValue :=
  match ctx with
  | some c => if jsTruthy c then c else JValue.obj []
  | none => JValue.obj []

/-- `load(config)` (lines 21-36): rejects a falsy config or one without a
truthy `states` field (engine unchanged, no notification); otherwise stores
the config, deep-copies `config.context || \x7b\x7d`, resets ids and history,
records the `"Initial State"` entry and notifies. -/
def load (now : String) (e : Engine) (config : Option RawConfig) : Engine × List Projection :=
  match config with
  | none => (e, [])
  | some cfg =>
    match cfg.states with
    | none => (e, [])
    | some sts =>
      let e1 : Engine :=
        { config := some { id := cfg.id, initialState := cfg.initialState,
                           context := cfg.context, states := sts }
          context := deepCopy (defaultedContext cfg.context)
          currentStateId := some cfg.initialState
          previousStateId := none
          lastEventId := none
          history := [] }
      let e2 := recordHistory now e1 "Initial State" (JValue.obj [])
      (e2, [getState e2])

/-- The action phase of `send` (lines 63-77): with no action the context is
carried forward; otherwise the action string is evaluated on a deep copy of
the context together with the raw input. -/
def runAction (evalAction : String → JValue → JValue → Except String JValue)
    (action : Option String) (ctx input : JValue) : Except String JValue :=
  match action with
  | none => Except.ok ctx
  | some a => evalAction a (deepCopy ctx) input

/-- `send(eventId, input)` (lines 54-86). The three `Except.error` branches
are the JavaScript `TypeError`s thrown by `this.config.states` on a null
config, `currentState.on` on an unresolved current state, and
`currentState.on[eventId]` on a missing `on` field; each is thrown before
any engine field is mutated. -/
def send (evalAction : String → JValue → JValue → Except String JValue)
    (now : String) (e : Engine) (eventId : String) (input : JValue) :
    Except JsError (SendResult × Engine × List Projection) :=
  match e.config with
  | none => Except.error JsError.typeError
  | some cfg =>
    match jlookup cfg.states (propKey e.currentStateId) with
    | none => Except.error JsError.typeError
    | some currentState =>
      match currentState.onMap with
      | none => Except.error JsError.typeError
      | some onMap =>
        match jlookup onMap eventId with
        | none => Except.ok (SendResult.noTransition, e, [])
        | some transition =>
          match runAction evalAction transition.action e.context input with
          | Except.error msg => Except.ok (SendResult.actionError msg, e, [])
          | Except.ok ctx' =>
            let e1 : Engine :=
              { e with context := ctx'
                       previousStateId := e.currentStateId
                       currentStateId := some transition.toState
                       lastEventId := some eventId }
            let e2 := recordHistory now e1 eventId input
            Except.ok (SendResult.success, e2, [getState e2])

/-- `undo()` (lines 166-183): no-op when history has at most one entry;
otherwise pops the tail, restores state id and a deep copy of the context
from the new tail, maps the `"Initial State"` sentinel event to a null
`lastEventId`, recomputes `previousStateId` from the entry beneath the new
tail, and notifies. The inner `none` branch is unreachable (the popped
history is nonempty whenever the original length is at least 2). -/
def undo (e : Engine) : Engine × List Projection :=
  if e.history.length ≤ 1 then (e, [])
  else
    let h := e.history.dropLast
    match h.getLast? with
    | none => (e, [])
    | some restored =>
      let e1 : Engine :=
        { e with
          history := h
          currentStateId := restored.state
          context := deepCopy restored.context
          lastEventId := if restored.event = "Initial State" then none
            else some restored.event
          previousStateId := if h.length > 1 then
              match h.get? (h.length - 2) with
              | some en => en.state
              | none => none
            else none }
      (e1, [getState e1])

/-! ### Spec-side edge enumeration (for the edge-highlight claim)

The specification describes the highlighted edge as "the zero-based index of
the edge whose source equals `previousStateId` and whose event equals
`lastEventId`" in the enumeration of all transitions in insertion order of
states and then of each state's events. The following definitions follow the
spec's words and are compared against the code-side fold above. -/

/-- The edges contributed by one state, in insertion order of its events. -/
def edgeOf (p : String × StateDef) : List (String × String × TransitionDef) :=
  match p.2.onMap with
  | none => []
  | some m => m.map (fun q => (p.1, q.1, q.2))

/-- All edges of a definition, in insertion order of states and then of each
state's events (spec wording). -/
def edgeEnum (sts : List (String × StateDef)) : List (String × String × TransitionDef) :=
  (sts.map edgeOf).flatten

/-- Whether an edge's source equals `previousStateId` and its event equals
`lastEventId` (spec wording for the highlighted edge). -/
def matchEdge (e : Engine) (t : String × String × TransitionDef) : Prop :=
  some t.1 = e.previousStateId ∧ some t.2.1 = e.lastEventId

instance (e : Engine) (t : String × String × TransitionDef) :
    Decidable (matchEdge e t) := by
  unfold matchEdge; infer_instance

/-- Zero-based index of the first element satisfying a predicate. -/
def firstMatchIdx {α : Type} (p : α → Bool) : List α → Option Nat
  | [] => none
  | a :: as => if p a then some 0 else (firstMatchIdx p as).map (fun n => n + 1)

/-- The zero-based index, per the spec's enumeration, of the edge whose source
is `previousStateId` and whose event is `lastEventId`. -/
def specActiveIndex (e : Engine) (sts : List (String × StateDef)) : Option Nat :=
  firstMatchIdx (fun t => decide (matchEdge e t)) (edgeEnum sts)

/-- The positional style directive appended for a highlighted edge, or the
empty string when no edge qualifies. -/
def linkSuffix : Option Nat → String
  | some j => s!"    linkStyle {j} stroke:#6366f1,stroke-width:4px,color:#6366f1\n"
  | none => ""

/-- Number of elements of a list satisfying a predicate. -/
def cntP {α : Type} (p : α → Bool) : List α → Nat
  | [] => 0
  | a :: as => (if p a then 1 else 0) + cntP p as

/-- Key uniqueness as guaranteed by JavaScript objects: the state identifiers
are distinct, and the event identifiers within each state's `on` object are
distinct. -/
def wfKeys (sts : List (String × StateDef)) : Prop :=
  (sts.map Prod.fst).Nodup ∧
  ∀ p ∈ sts, ∀ m, p.2.onMap = some m → (m.map Prod.fst).Nodup

/-! ### Reference model of the heap (object identity)

The pure model above treats JSON values structurally, which cannot express
aliasing. The claims about deep-copy independence are about JavaScript
object identity, so the operations are re-traced here with the context
objects living in an explicit store: a context is a reference (`Nat` index)
into a store of JSON values, `JSON.parse(JSON.stringify(...))` allocates a
fresh cell holding an equal value, and plain assignment copies the
reference. Only the context objects are tracked; nested structure needs no
separate cells because a deep copy shares nothing at any depth. -/

/-- The heap of context objects; a reference is an index into `objs`. -/
structure Store where
  objs : List JValue

/-- Allocate a fresh object holding `v`; returns its reference. -/
def ralloc (s : Store) (v : JValue) : Nat × Store :=
  (s.objs.length, ⟨s.objs ++ [v]⟩)

/-- Read the object at a reference. -/
def rget (s : Store) (r : Nat) : JValue :=
  (s.objs.get? r).getD JValue.null

/-- Mutate the object at a reference in place. -/
def rset (s : Store) (r : Nat) (v : JValue) : Store :=
  ⟨s.objs.set r v⟩

/-- History entry in the reference model: `context` and `input` are
references to the snapshot objects allocated by `recordHistory`. -/
structure RHistoryEntry where
  timestamp : String
  state : Option String
  event : String
  context : Nat
  input : Nat

/-- The engine in the reference model: `context` is a reference to the live
context object. -/
structure RefEngine where
  config : Option Config
  currentStateId : Option String
  previousStateId : Option String
  context : Nat
  history : List RHistoryEntry
  lastEventId : Option String

/-- Collapse the reference model to the pure model by dereferencing every
context/input object. -/
def refToEngine (e : RefEngine) (s : Store) : Engine :=
  { config := e.config
    currentStateId := e.currentStateId
    previousStateId := e.previousStateId
    context := rget s e.context
    history := e.history.map (fun en =>
      { timestamp := en.timestamp, state := en.state, event := en.event,
        context := rget s en.context, input := rget s en.input })
    lastEventId := e.lastEventId }

/-- The projection of `getState()` in the reference model. The `context`
field is the reference held in `this.context` itself — line 156 of the
source is `context: this.context`, a reference copy, not a deep copy. -/
structure RProjection where
  id : Option String
  data : Option StateDef
  context : Nat
  availableEvents : Option (List (String × TransitionDef))
  mermaid : String
  history : List RHistoryEntry

/-- `getState()` in the reference model (reads the store only to render the
diagram; it allocates and mutates nothing). -/
def rgetState (e : RefEngine) (s : Store) : RProjection :=
  let stateData := match e.config with
    | none => none
    | some cfg => jlookup cfg.states (propKey e.currentStateId)
  { id := e.currentStateId
    data := stateData
    context := e.context
    availableEvents := match stateData with
      | none => some []
      | some st => st.onMap
    mermaid := generateMermaid (refToEngine e s)
    history := e.history }

/-- `recordHistory` in the reference model: allocates fresh deep copies of
the live context and of the input. -/
def rrecordHistory (now : String) (e : RefEngine) (s : Store)
    (event : String) (input : JValue) : RefEngine × Store :=
  let (rc, s1) := ralloc s (deepCopy (rget s e.context))
  let (ri, s2) := ralloc s1 (deepCopy input)
  ({ e with history := e.history ++
      [{ timestamp := now, state := e.currentStateId, event := event,
         context := rc, input := ri }] }, s2)

/-- `load` in the reference model: `JSON.parse(JSON.stringify(config.context
|| \x7b\x7d))` allocates a fresh live context object. -/
def rload (now : String) (e : RefEngine) (s : Store) (config : Option RawConfig) :
    RefEngine × Store :=
  match config with
  | none => (e, s)
  | some cfg =>
    match cfg.states with
    | none => (e, s)
    | some sts =>
      let (rc, s1) := ralloc s (deepCopy (defaultedContext cfg.context))
      let e1 : RefEngine :=
        { config := some { id := cfg.id, initialState := cfg.initialState,
                           context := cfg.context, states := sts }
          context := rc
          currentStateId := some cfg.initialState
          previousStateId := none
          lastEventId := none
          history := [] }
      rrecordHistory now e1 s1 "Initial State" (JValue.obj [])

/-- `send` in the reference model. On the action path the engine first
allocates the deep copy passed to the action function (line 71); if the
action throws, the copy is left as garbage and the engine is untouched. On
success the live context becomes the (mutated) copy object, and
`recordHistory` then snapshots it into fresh cells. -/
def rsend (evalAction : String → JValue → JValue → Except String JValue)
    (now : String) (e : RefEngine) (s : Store) (eventId : String) (input : JValue) :
    Except JsError SendResult × RefEngine × Store :=
  match e.config with
  | none => (Except.error JsError.typeError, e, s)
  | some cfg =>
    match jlookup cfg.states (propKey e.currentStateId) with
    | none => (Except.error JsError.typeError, e, s)
    | some currentState =>
      match currentState.onMap with
      | none => (Except.error JsError.typeError, e, s)
      | some onMap =>
        match jlookup onMap eventId with
        | none => (Except.ok SendResult.noTransition, e, s)
        | some transition =>
          match transition.action with
          | none =>
            let e1 : RefEngine :=
              { e with previousStateId := e.currentStateId
                       currentStateId := some transition.toState
                       lastEventId := some eventId }
            let (e2, s2) := rrecordHistory now e1 s eventId input
            (Except.ok SendResult.success, e2, s2)
          | some a =>
            let (rc, s1) := ralloc s (deepCopy (rget s e.context))
            match evalAction a (rget s1 rc) input with
            | Except.error msg => (Except.ok (SendResult.actionError msg), e, s1)
            | Except.ok v =>
              let s2 := rset s1 rc v
              let e1 : RefEngine :=
                { e with context := rc
                         previousStateId := e.currentStateId
                         currentStateId := some transition.toState
                         lastEventId := some eventId }
              let (e2, s3) := rrecordHistory now e1 s2 eventId input
              (Except.ok SendResult.success, e2, s3)

/-- `undo` in the reference model: the restored context is a fresh deep copy
of the snapshot held by the new tail entry (line 173). -/
def rundo (e : RefEngine) (s : Store) : RefEngine × Store :=
  if e.history.length ≤ 1 then (e, s)
  else
    let h := e.history.dropLast
    match h.getLast? with
    | none => (e, s)
    | some restored =>
      let (rc, s1) := ralloc s (deepCopy (rget s restored.context))
      let e1 : RefEngine :=
        { e with
          history := h
          currentStateId := restored.state
          context := rc
          lastEventId := if restored.event = "Initial State" then none
            else some restored.event
          previousStateId := if h.length > 1 then
              match h.get? (h.length - 2) with
              | some en => en.state
              | none => none
            else none }
      (e1, s1)

/-- Heap well-formedness: the live context reference and every history
snapshot reference are valid, the live context is not shared with any
history snapshot, and no two history snapshots share an object. -/
def RefInv (e : RefEngine) (s : Store) : Prop :=
  e.context < s.objs.length ∧
  (∀ en ∈ e.history, en.context < s.objs.length ∧ en.context ≠ e.context) ∧
  (e.history.map RHistoryEntry.context).Nodup

instance (e : RefEngine) (s : Store) : Decidable (RefInv e s) := by
  unfold RefInv; infer_instance

/-- The index-tracking part of `edgeStep`, on the `(edgeIndex,
activeEdgeIndex)` pair alone (the string component of the fold does not feed
back into it). -/
def idxStep (e : Engine) (acc : Nat × Int) (t : String × String × TransitionDef) : Nat × Int :=
  (acc.1 + 1, if some t.1 = e.previousStateId ∧ some t.2.1 = e.lastEventId
    then (acc.1 : Int) else acc.2)

/-- The chain of lookups `this.config.states[this.currentStateId].on`
performed by `send` before any mutation; `send` throws a `TypeError` exactly
when some link is missing. -/
def resolvesOn (e : Engine) : Option (List (String × TransitionDef)) :=
  match e.config with
  | none => none
  | some cfg =>
    match jlookup cfg.states (propKey e.currentStateId) with
    | none => none
    | some st => st.onMap

/-! ### Concrete machines used to evaluate the theorems -/

/-- Action evaluator for machines without actions (never consulted). -/
def evalNone : String → JValue → JValue → Except String JValue :=
  fun _ c _ => Except.ok c

/-- Action evaluator modelling an action string whose evaluation throws. -/
def evalFail : String → JValue → JValue → Except String JValue :=
  fun _ _ _ => Except.error "boom"

/-- A two-state machine without actions: `a --GO--> b --BACK--> a`. -/
def abConfig : RawConfig :=
  { id := some "ab"
    initialState := "a"
    context := some (JValue.obj [("n", JValue.num 1)])
    states := some
      [("a", { label := some "A",
               onMap := some [("GO", { toState := "b", label := none, action := none })] }),
       ("b", { label := none,
               onMap := some [("BACK", { toState := "a", label := none, action := none })] })] }

/-- The stored form of `abConfig` after a successful `load`. -/
def abStoredConfig : Config :=
  { id := some "ab"
    initialState := "a"
    context := some (JValue.obj [("n", JValue.num 1)])
    states :=
      [("a", { label := some "A",
               onMap := some [("GO", { toState := "b", label := none, action := none })] }),
       ("b", { label := none,
               onMap := some [("BACK", { toState := "a", label := none, action := none })] })] }

/-- The `ab` machine immediately after `load`. -/
def abE0 : Engine := (load "t0" initialEngine (some abConfig)).1

/-- The history entry recorded by loading the `ab` machine. -/
def abEntry0 : HistoryEntry :=
  { timestamp := "t0", state := some "a", event := "Initial State",
    context := JValue.obj [("n", JValue.num 1)], input := JValue.obj [] }

/-- Result of sending `GO` to the freshly loaded `ab` machine. -/
def abSendRes : Except JsError (SendResult × Engine × List Projection) :=
  send evalNone "t1" abE0 "GO" (JValue.obj [])

/-- The `ab` machine after the successful `GO` transition. -/
def abE1 : Engine :=
  match abSendRes with
  | Except.ok (_, e, _) => e
  | _ => abE0

/-- The notifications emitted by the `GO` transition. -/
def abNs1 : List Projection :=
  match abSendRes with
  | Except.ok (_, _, ns) => ns
  | _ => []

/-- A machine whose only transition carries an action (whose evaluation is
made to throw via `evalFail`). -/
def actConfig : RawConfig :=
  { id := some "act"
    initialState := "a"
    context := some (JValue.obj [("x", JValue.num 0)])
    states := some
      [("a", { label := none,
               onMap := some [("GO", { toState := "b", label := none,
                                       action := some "context.x = boom()" })] }),
       ("b", { label := none, onMap := some [] })] }

/-- The `act` machine immediately after `load`. -/
def actE0 : Engine := (load "t0" initialEngine (some actConfig)).1

/-- A machine with a genuine event literally named `"Initial State"`:
`a --"Initial State"--> b --NEXT--> c`. -/
def isConfig : RawConfig :=
  { id := some "is"
    initialState := "a"
    context := some (JValue.obj [])
    states := some
      [("a", { label := none,
               onMap := some [("Initial State",
                 { toState := "b", label := none, action := none })] }),
       ("b", { label := none,
               onMap := some [("NEXT", { toState := "c", label := none, action := none })] }),
       ("c", { label := none, onMap := some [] })] }

/-- The `is` machine immediately after `load`. -/
def isE0 : Engine := (load "t0" initialEngine (some isConfig)).1

/-- The `is` machine after taking the genuine `"Initial State"` event. -/
def isE1 : Engine :=
  match send evalNone "t1" isE0 "Initial State" (JValue.obj []) with
  | Except.ok (_, e, _) => e
  | _ => isE0

/-- The `is` machine after then taking `NEXT`. -/
def isE2 : Engine :=
  match send evalNone "t2" isE1 "NEXT" (JValue.obj []) with
  | Except.ok (_, e, _) => e
  | _ => isE1

/-- A configuration whose `context` field is present but `null` (falsy). -/
def nullCtxConfig : RawConfig :=
  { id := some "nullctx"
    initialState := "s"
    context := some JValue.null
    states := some [("s", { label := none, onMap := some [] })] }

/-- Engine-and-store pair after `new VisualizerEngine()`: the constructor's
`this.context = \x7b\x7d` allocates one empty object. -/
def initialRefPair : RefEngine × Store :=
  let (rc, s) := ralloc ⟨[]⟩ (JValue.obj [])
  ({ config := none, currentStateId := none, previousStateId := none,
     context := rc, history := [], lastEventId := none }, s)

/-- The `ab` machine loaded in the reference model. -/
def refAb : RefEngine × Store :=
  rload "t0" initialRefPair.1 initialRefPair.2 (some abConfig)

/-! ## Theorems -/

/-- C1: if the transition found for `eventId` has an action and its
evaluation throws, `send` returns the structured error object carrying the
error message, the engine is returned exactly as it was (in particular
`currentStateId`, `context` and `history` are unchanged and no history entry
is appended), and no subscriber is notified. -/
theorem claim1_action_failure_atomic :
    ∀ (evalAction : String → JValue → JValue → Except String JValue)
      (now : String) (e : Engine) (cfg : Config) (st : StateDef)
      (onM : List (String × TransitionDef)) (tr : TransitionDef) (a : String)
      (eventId : String) (input : JValue) (msg : String),
      e.config = some cfg →
      jlookup cfg.states (propKey e.currentStateId) = some st →
      st.onMap = some onM →
      jlookup onM eventId = some tr →
      tr.action = some a →
      evalAction a (deepCopy e.context) input = Except.error msg →
      send evalAction now e eventId input =
        Except.ok (SendResult.actionError msg, e, []) := by
  intro evalAction now e cfg st onM tr a eventId input msg hc hst hon htr ha hev
  simp [send, hc, hst, hon, htr, runAction, ha, hev]

/-- Witness for C1: on the `act` machine, the failing `GO` action yields the
structured error and the engine value is returned unchanged with no
notifications. -/
theorem claim1_witness :
    send evalFail "t1" actE0 "GO" (JValue.obj []) =
      Except.ok (SendResult.actionError "boom", actE0, []) :=
  claim1_action_failure_atomic evalFail "t1" actE0 _ _ _ _ _ "GO" (JValue.obj [])
    "boom" rfl rfl rfl rfl rfl rfl

/-- C4: if the current state resolves and its `on` mapping has no entry for
`eventId`, `send` returns the falsy failure indication (`false`) and the
engine exactly as it was — `currentStateId`, `context`, history length,
`previousStateId` and `lastEventId` unchanged — with no notification. -/
theorem claim4_no_transition_pure :
    ∀ (evalAction : String → JValue → JValue → Except String JValue)
      (now : String) (e : Engine) (cfg : Config) (st : StateDef)
      (onM : List (String × TransitionDef)) (eventId : String) (input : JValue),
      e.config = some cfg →
      jlookup cfg.states (propKey e.currentStateId) = some st →
      st.onMap = some onM →
      jlookup onM eventId = none →
      send evalAction now e eventId input =
        Except.ok (SendResult.noTransition, e, []) := by
  intro evalAction now e cfg st onM eventId input hc hst hon hev
  simp [send, hc, hst, hon, hev]

/-- Witness for C4: sending the unknown event `NOPE` in state `b` of the
`ab` machine fails without any state change or notification. -/
theorem claim4_witness :
    send evalNone "t2" abE1 "NOPE" (JValue.obj []) =
      Except.ok (SendResult.noTransition, abE1, []) :=
  claim4_no_transition_pure evalNone "t2" abE1 _ _ _ "NOPE" (JValue.obj [])
    rfl rfl rfl rfl

/-- Counterexample to C3 as stated: calling `send` before any successful
`load` does not surface the failure through a return value — it raises an
unhandled `TypeError` (`this.config.states` with `this.config === null`). -/
theorem claim3_counterexample :
    send evalNone "t0" initialEngine "GO" (JValue.obj []) =
      Except.error JsError.typeError := rfl

/-- C3 amended: `send` raises an unhandled `TypeError` exactly when the
lookup chain `config.states[currentStateId].on` fails to resolve — before
any successful load, when `currentStateId` is a dangling reference, or when
the resolved state has no `on` field. In every other case (and for every
other engine operation, which are total functions here) failures surface
only through return values. -/
theorem claim3_amended_send_throws_iff :
    ∀ (evalAction : String → JValue → JValue → Except String JValue)
      (now : String) (e : Engine) (eventId : String) (input : JValue),
      (∃ err, send evalAction now e eventId input = Except.error err) ↔
        resolvesOn e = none := by
  intro evalAction now e eventId input
  cases hc : e.config with
  | none =>
    simp [send, resolvesOn, hc]
    exact ⟨JsError.typeError, trivial⟩
  | some cfg =>
    cases hst : jlookup cfg.states (propKey e.currentStateId) with
    | none =>
      simp [send, resolvesOn, hc, hst]
      exact ⟨JsError.typeError, trivial⟩
    | some st =>
      cases hon : st.onMap with
      | none =>
        simp [send, resolvesOn, hc, hst, hon]
        exact ⟨JsError.typeError, trivial⟩
      | some onM =>
        cases hev : jlookup onM eventId with
        | none => simp [send, resolvesOn, hc, hst, hon, hev]
        | some tr =>
          cases hr : runAction evalAction tr.action e.context input with
          | error msg => simp [send, resolvesOn, hc, hst, hon, hev, hr]
          | ok ctx2 => simp [send, resolvesOn, hc, hst, hon, hev, hr]

/-- Counterexample to C7 as stated: a definition whose `context` field is
present but `null` (falsy) is loaded with live context `\x7b\x7d`, not with a
copy of `definition.context`. -/
theorem claim7_counterexample :
    (load "t0" initialEngine (some nullCtxConfig)).1.context = JValue.obj [] ∧
    (load "t0" initialEngine (some nullCtxConfig)).1.context ≠ JValue.null ∧
    nullCtxConfig.context = some JValue.null := by
  refine ⟨rfl, ?_, rfl⟩
  intro h
  exact JValue.noConfusion (show JValue.obj [] = JValue.null from h)

/-- C7 amended: immediately after `load` of a definition with a present
`states` field, history is the single `"Initial State"` entry, whose context
— like the live context — is a copy of `definition.context` when that is
present and truthy and `\x7b\x7d` otherwise (absent or falsy, e.g. `null`);
`currentStateId` is `definition.initialState` and `previousStateId` and
`lastEventId` are null. -/
theorem claim7_amended_load_postcondition :
    ∀ (now : String) (e : Engine) (cfg : RawConfig)
      (sts : List (String × StateDef)) (e2 : Engine) (ns : List Projection),
      cfg.states = some sts →
      load now e (some cfg) = (e2, ns) →
      e2.history = [{ timestamp := now, state := some cfg.initialState,
                      event := "Initial State",
                      context := defaultedContext cfg.context,
                      input := JValue.obj [] }] ∧
      e2.history.length = 1 ∧
      e2.context = defaultedContext cfg.context ∧
      e2.currentStateId = some cfg.initialState ∧
      e2.previousStateId = none ∧
      e2.lastEventId = none ∧
      ns = [getState e2] := by
  intro now e cfg sts e2 ns hs hl
  simp [load, hs, recordHistory, deepCopy] at hl
  obtain ⟨he, hn⟩ := hl
  subst he
  subst hn
  simp [recordHistory, deepCopy]

/-- Witness for C7 (amended): the freshly loaded `ab` machine has exactly
the initial history entry, the copied context, and null
previous/last-event ids. -/
theorem claim7_witness :
    abE0.history = [abEntry0] ∧
    abE0.history.length = 1 ∧
    abE0.context = defaultedContext abConfig.context ∧
    abE0.currentStateId = some abConfig.initialState ∧
    abE0.previousStateId = none ∧
    abE0.lastEventId = none ∧
    (load "t0" initialEngine (some abConfig)).2 = [getState abE0] :=
  claim7_amended_load_postcondition "t0" initialEngine abConfig _ abE0
    (load "t0" initialEngine (some abConfig)).2 rfl rfl

/-- C6: a `send` that finds a transition and whose action phase succeeds
returns the success indicator, appends exactly one history entry whose
`state` field is the new `currentStateId` (which is `transition.to`), sets
`previousStateId` to the pre-call `currentStateId` and `lastEventId` to the
event, and notifies with the fresh projection. -/
theorem claim6_send_success_postcondition :
    ∀ (evalAction : String → JValue → JValue → Except String JValue)
      (now : String) (e : Engine) (cfg : Config) (st : StateDef)
      (onM : List (String × TransitionDef)) (tr : TransitionDef)
      (eventId : String) (input ctx2 : JValue) (r : SendResult)
      (e2 : Engine) (ns : List Projection),
      e.config = some cfg →
      jlookup cfg.states (propKey e.currentStateId) = some st →
      st.onMap = some onM →
      jlookup onM eventId = some tr →
      runAction evalAction tr.action e.context input = Except.ok ctx2 →
      send evalAction now e eventId input = Except.ok (r, e2, ns) →
      r = SendResult.success ∧
      e2.history = e.history ++
        [{ timestamp := now, state := some tr.toState, event := eventId,
           context := ctx2, input := input }] ∧
      e2.history.length = e.history.length + 1 ∧
      e2.currentStateId = some tr.toState ∧
      e2.previousStateId = e.currentStateId ∧
      e2.lastEventId = some eventId ∧
      ns = [getState e2] := by
  intro evalAction now e cfg st onM tr eventId input ctx2 r e2 ns
    hc hst hon htr hr hsend
  simp [send, hc, hst, hon, htr, hr] at hsend
  obtain ⟨h1, h2, h3⟩ := hsend
  subst h1
  subst h2
  subst h3
  simp [recordHistory, deepCopy]

/-- Witness for C6: the `GO` transition of the `ab` machine appends exactly
one entry, moves to `b`, records `previousStateId = a` and
`lastEventId = GO`, and notifies once. -/
theorem claim6_witness :
    SendResult.success = SendResult.success ∧
    abE1.history = abE0.history ++
      [{ timestamp := "t1", state := some "b", event := "GO",
         context := JValue.obj [("n", JValue.num 1)], input := JValue.obj [] }] ∧
    abE1.history.length = abE0.history.length + 1 ∧
    abE1.currentStateId = some "b" ∧
    abE1.previousStateId = abE0.currentStateId ∧
    abE1.lastEventId = some "GO" ∧
    abNs1 = [getState abE1] :=
  claim6_send_success_postcondition evalNone "t1" abE0 _ _ _ _ "GO"
    (JValue.obj []) (JValue.obj [("n", JValue.num 1)]) SendResult.success
    abE1 abNs1 rfl rfl rfl rfl rfl rfl

/-- Helper: inversion of a successful `send` — the new history is the old
history with exactly one entry appended, recording the event, the input, the
new current state id and the new context; `previousStateId` becomes the
pre-call `currentStateId`. -/
theorem send_success_shape :
    ∀ (evalAction : String → JValue → JValue → Except String JValue)
      (now : String) (e : Engine) (eventId : String) (input : JValue)
      (e2 : Engine) (ns : List Projection),
      send evalAction now e eventId input = Except.ok (SendResult.success, e2, ns) →
      ∃ ctx2,
        e2.history = e.history ++
          [{ timestamp := now, state := e2.currentStateId, event := eventId,
             context := ctx2, input := input }] ∧
        e2.context = ctx2 ∧
        e2.previousStateId = e.currentStateId := by
  intro evalAction now e eventId input e2 ns hsend
  cases hc : e.config with
  | none => simp [send, hc] at hsend
  | some cfg =>
    cases hst : jlookup cfg.states (propKey e.currentStateId) with
    | none => simp [send, hc, hst] at hsend
    | some st =>
      cases hon : st.onMap with
      | none => simp [send, hc, hst, hon] at hsend
      | some onM =>
        cases hev : jlookup onM eventId with
        | none => simp [send, hc, hst, hon, hev] at hsend
        | some tr =>
          cases hr : runAction evalAction tr.action e.context input with
          | error msg => simp [send, hc, hst, hon, hev, hr] at hsend
          | ok ctx2 =>
            simp [send, hc, hst, hon, hev, hr] at hsend
            obtain ⟨h2, h3⟩ := hsend
            subst h2
            subst h3
            exact ⟨ctx2, by simp [recordHistory, deepCopy], rfl, rfl⟩

/-- Helper: `undo` on an engine whose history is `l ++ [en]` with `l`
nonempty pops `en` and restores from the last entry of `l`. -/
theorem undo_concat :
    ∀ (f : Engine) (l : List HistoryEntry) (en le : HistoryEntry),
      f.history = l ++ [en] →
      l.getLast? = some le →
      (undo f).1.history = l ∧
      (undo f).1.currentStateId = le.state ∧
      (undo f).1.context = le.context ∧
      (undo f).1.lastEventId =
        (if le.event = "Initial State" then none else some le.event) ∧
      (undo f).1.previousStateId =
        (if 1 < l.length then
          match l.get? (l.length - 2) with
          | some en2 => en2.state
          | none => none
         else none) ∧
      (undo f).2 = [getState (undo f).1] := by
  intro f l en le hh hl
  have hlne : l ≠ [] := by
    intro h2
    rw [h2] at hl
    simp at hl
  have hlen : ¬ (f.history.length ≤ 1) := by
    rw [hh, List.length_append]
    have := List.length_pos.mpr hlne
    simp only [List.length_singleton]
    omega
  have hdrop : f.history.dropLast = l := by rw [hh]; simp
  simp [undo, if_neg hlen, hdrop, hl, deepCopy]

/-- C5: undo inverts a successful send — given the source's own history
invariants at the pre-send state (the history tail snapshots the live
state/context, and the entry beneath the tail records `previousStateId`,
which is null at history length 1), undoing right after a successful `send`
restores `currentStateId`, `context` (structurally, via the deep copy) and
`previousStateId` to their pre-send values and removes exactly the appended
tail entry; and undo at history length 1 is a no-op that notifies no one. -/
theorem claim5_undo_inverts_send :
    (∀ (evalAction : String → JValue → JValue → Except String JValue)
       (now : String) (e : Engine) (eventId : String) (input : JValue)
       (e2 : Engine) (ns : List Projection) (le : HistoryEntry),
       e.history.getLast? = some le →
       le.state = e.currentStateId →
       le.context = e.context →
       (1 < e.history.length →
         Option.map HistoryEntry.state (e.history.get? (e.history.length - 2)) =
           some e.previousStateId) →
       (e.history.length = 1 → e.previousStateId = none) →
       send evalAction now e eventId input = Except.ok (SendResult.success, e2, ns) →
       (undo e2).1.currentStateId = e.currentStateId ∧
       (undo e2).1.context = e.context ∧
       (undo e2).1.previousStateId = e.previousStateId ∧
       (undo e2).1.history = e.history) ∧
    (∀ e : Engine, e.history.length = 1 → undo e = (e, [])) := by
  constructor
  · intro evalAction now e eventId input e2 ns le hle hst hctx hprev hprev1 hsend
    obtain ⟨ctx2, hh, -, -⟩ := send_success_shape evalAction now e eventId input e2 ns hsend
    obtain ⟨h1, h2, h3, -, h5, -⟩ := undo_concat e2 e.history _ le hh hle
    refine ⟨by rw [h2, hst], by rw [h3, hctx], ?_, h1⟩
    rw [h5]
    by_cases hlen : 1 < e.history.length
    · rw [if_pos hlen]
      have := hprev hlen
      cases hget : e.history.get? (e.history.length - 2) with
      | none => rw [hget] at this; simp at this
      | some pe =>
        rw [hget] at this
        simp at this
        simp [this]
    · rw [if_neg hlen]
      have hne : e.history ≠ [] := by
        intro h2'
        rw [h2'] at hle
        simp at hle
      have hpos := List.length_pos.mpr hne
      have h1' : e.history.length = 1 := by omega
      rw [hprev1 h1']
  · intro e h
    simp [undo, h]

/-- Witness for C5: on the `ab` machine, undoing right after the `GO`
transition restores the post-load state, and undo on the freshly loaded
machine (history length 1) is a no-op. -/
theorem claim5_witness :
    ((undo abE1).1.currentStateId = abE0.currentStateId ∧
     (undo abE1).1.context = abE0.context ∧
     (undo abE1).1.previousStateId = abE0.previousStateId ∧
     (undo abE1).1.history = abE0.history) ∧
    undo abE0 = (abE0, []) := by
  constructor
  · exact claim5_undo_inverts_send.1 evalNone "t1" abE0 "GO" (JValue.obj [])
      abE1 abNs1 abEntry0 rfl rfl rfl
      (fun h => absurd h (by decide)) (fun _ => rfl) rfl
  · exact claim5_undo_inverts_send.2 abE0 rfl

/-- C10: when a transition is taken via an event literally named
`"Initial State"` and a later successful send is then undone, the restored
tail is the entry recording that event, yet `lastEventId` is set to null —
the undo logic cannot distinguish the genuine event from the load marker. -/
theorem claim10_sentinel_collision :
    ∀ (evalA1 evalA2 : String → JValue → JValue → Except String JValue)
      (now1 now2 : String) (e e1 e2 : Engine) (ev2 : String)
      (input1 input2 : JValue) (ns1 ns2 : List Projection),
      send evalA1 now1 e "Initial State" input1 =
        Except.ok (SendResult.success, e1, ns1) →
      send evalA2 now2 e1 ev2 input2 =
        Except.ok (SendResult.success, e2, ns2) →
      (undo e2).1.lastEventId = none ∧
      Option.map HistoryEntry.event ((undo e2).1.history.getLast?) =
        some "Initial State" := by
  intro evalA1 evalA2 now1 now2 e e1 e2 ev2 input1 input2 ns1 ns2 hs1 hs2
  obtain ⟨ctx1, hh1, -, -⟩ :=
    send_success_shape evalA1 now1 e "Initial State" input1 e1 ns1 hs1
  obtain ⟨ctx2, hh2, -, -⟩ :=
    send_success_shape evalA2 now2 e1 ev2 input2 e2 ns2 hs2
  have hle : e1.history.getLast? =
      some { timestamp := now1, state := e1.currentStateId,
             event := "Initial State", context := ctx1, input := input1 } := by
    rw [hh1]
    simp
  obtain ⟨h1, -, -, h4, -, -⟩ := undo_concat e2 e1.history _ _ hh2 hle
  refine ⟨by rw [h4]; simp, ?_⟩
  rw [h1, hle]
  simp

/-- Witness for C10: on the `is` machine (whose first transition's event is
literally `"Initial State"`), undoing after the subsequent `NEXT` transition
leaves `lastEventId` null even though the restored tail records the genuine
`"Initial State"` event. -/
theorem claim10_witness :
    (undo isE2).1.lastEventId = none ∧
    Option.map HistoryEntry.event ((undo isE2).1.history.getLast?) =
      some "Initial State" :=
  claim10_sentinel_collision evalNone evalNone "t1" "t2" isE0 isE1 isE2 "NEXT"
    (JValue.obj []) (JValue.obj []) _ _ rfl rfl

/-- Helper: in a list of key-value pairs with distinct keys, filtering on a
key that occurs yields exactly one pair, carrying that key. -/
theorem filter_keys_single :
    ∀ (sts : List (String × StateDef)) (cur : String),
      (sts.map Prod.fst).Nodup → cur ∈ sts.map Prod.fst →
      (sts.filter (fun p => p.1 == cur)).map Prod.fst = [cur] := by
  intro sts cur
  induction sts with
  | nil =>
    intro _ hmem
    simp at hmem
  | cons p ps ih =>
    intro hnd hmem
    rw [List.map_cons, List.nodup_cons] at hnd
    obtain ⟨hnotin, hnd2⟩ := hnd
    rw [List.map_cons] at hmem
    rcases List.mem_cons.mp hmem with heq | hmem2
    · have hfil : ps.filter (fun q => q.1 == cur) = [] := by
        apply List.filter_eq_nil_iff.mpr
        intro q hq hbeq
        apply hnotin
        have : q.1 = cur := by simpa using hbeq
        rw [← heq, ← this]
        exact List.mem_map.mpr ⟨q, hq, rfl⟩
      rw [List.filter_cons, if_pos (by simp [heq]), List.map_cons, hfil]
      rw [heq]
      rfl
    · have hne : ¬ (p.1 == cur) = true := by
        simp only [beq_iff_eq]
        intro h
        exact hnotin (h ▸ hmem2)
      rw [List.filter_cons, if_neg hne]
      exact ih hnd2 hmem2

/-- C9: the projection's diagram is the pure function `generateMermaid` of
the engine value (so two calls with no intervening mutation yield identical
strings); when `currentStateId` is a key of `states` (with the key
uniqueness JavaScript objects guarantee), exactly one node — the one for
`currentStateId` — carries the `current` class; and a node id equal to
`currentStateId` gets the `current` class unconditionally, taking precedence
over `previous`. -/
theorem claim9_diagram_classes :
    ∀ (e : Engine) (cfg : Config) (cur : String),
      e.config = some cfg →
      e.currentStateId = some cur →
      (cfg.states.map Prod.fst).Nodup →
      cur ∈ cfg.states.map Prod.fst →
      (getState e).mermaid = generateMermaid e ∧
      (cfg.states.filter (fun p => nodeClass e p.1 == some "current")).map Prod.fst
        = [cur] ∧
      (∀ id, some id = e.currentStateId → nodeClass e id = some "current") := by
  intro e cfg cur hc hcur hnd hmem
  refine ⟨rfl, ?_, ?_⟩
  · have hpred : ∀ p ∈ cfg.states,
        (nodeClass e p.1 == some "current") = (p.1 == cur) := by
      intro p _
      by_cases hp : p.1 = cur
      · subst hp
        unfold nodeClass
        rw [if_pos hcur.symm]
        simp
      · unfold nodeClass
        rw [if_neg (by rw [hcur]; simp [hp])]
        split
        · simp [hp]
        · simp [hp]
    rw [List.filter_congr hpred]
    exact filter_keys_single cfg.states cur hnd hmem
  · intro id h
    unfold nodeClass
    rw [if_pos h]

/-- Witness for C9: on the `ab` machine after `GO`, the node for `b` is the
unique carrier of the `current` class. -/
theorem claim9_witness :
    (getState abE1).mermaid = generateMermaid abE1 ∧
    (abStoredConfig.states.filter
      (fun p => nodeClass abE1 p.1 == some "current")).map Prod.fst = ["b"] ∧
    (∀ id, some id = abE1.currentStateId → nodeClass abE1 id = some "current") :=
  claim9_diagram_classes abE1 abStoredConfig "b" rfl rfl (by decide) (by decide)

/-- Helper: the nested transition fold of `generateMermaid` equals a flat
fold over the spec-side edge enumeration. -/
theorem edgeSection_eq_flat :
    ∀ (e : Engine) (sts : List (String × StateDef)) (acc0 : String × Nat × Int),
      edgeSection e sts acc0 = (edgeEnum sts).foldl (edgeStep e) acc0 := by
  intro e sts
  induction sts with
  | nil => intro acc0; rfl
  | cons p ps ih =>
    intro acc0
    have hinner : (match p.2.onMap with
        | none => acc0
        | some onMap => onMap.foldl (fun acc2 q => edgeStep e acc2 (p.1, q.1, q.2)) acc0)
        = (edgeOf p).foldl (edgeStep e) acc0 := by
      cases hm : p.2.onMap with
      | none => simp [edgeOf, hm]
      | some m => simp [edgeOf, hm, List.foldl_map]
    have hstep : edgeSection e (p :: ps) acc0
        = edgeSection e ps ((edgeOf p).foldl (edgeStep e) acc0) := by
      simp only [edgeSection, List.foldl_cons]
      rw [← hinner]
    rw [hstep, ih]
    have henum : edgeEnum (p :: ps) = edgeOf p ++ edgeEnum ps := by
      simp [edgeEnum]
    rw [henum, List.foldl_append]

/-- Helper: the `(edgeIndex, activeEdgeIndex)` components of the edge fold
do not depend on the accumulated string. -/
theorem foldl_edgeStep_snd :
    ∀ (e : Engine) (l : List (String × String × TransitionDef))
      (m : String) (i : Nat) (a : Int),
      (l.foldl (edgeStep e) (m, i, a)).2 = l.foldl (idxStep e) (i, a) := by
  intro e l
  induction l with
  | nil => intro m i a; rfl
  | cons t ts ih =>
    intro m i a
    simp only [List.foldl_cons]
    exact ih _ _ _

/-- Helper: a fold over edges none of which match leaves the active index
untouched and advances the counter by the list length. -/
theorem foldl_idxStep_zero :
    ∀ (e : Engine) (l : List (String × String × TransitionDef)),
      cntP (fun t => decide (matchEdge e t)) l = 0 →
      ∀ (i : Nat) (a : Int), l.foldl (idxStep e) (i, a) = (i + l.length, a) := by
  intro e l
  induction l with
  | nil => intro _ i a; simp
  | cons t ts ih =>
    intro h i a
    rw [cntP] at h
    by_cases hm : decide (matchEdge e t) = true
    · rw [if_pos hm] at h
      omega
    · rw [if_neg hm, Nat.zero_add] at h
      have hnm : ¬ matchEdge e t := of_decide_eq_false (by revert hm; cases decide (matchEdge e t) <;> simp)
      have hnm2 : ¬ (some t.1 = e.previousStateId ∧ some t.2.1 = e.lastEventId) := hnm
      simp only [List.foldl_cons, idxStep, if_neg hnm2]
      rw [ih h (i + 1) a]
      simp
      omega

/-- Helper: with at most one matching edge, the code's last-match overwrite
computes exactly the first (hence unique) match index, offset by the running
counter, with the sentinel preserved when there is no match. -/
theorem foldl_idxStep_firstMatch :
    ∀ (e : Engine) (l : List (String × String × TransitionDef)),
      cntP (fun t => decide (matchEdge e t)) l ≤ 1 →
      ∀ (i : Nat) (a : Int),
        (l.foldl (idxStep e) (i, a)).2 =
          (match firstMatchIdx (fun t => decide (matchEdge e t)) l with
           | some j => ((i + j : Nat) : Int)
           | none => a) := by
  intro e l
  induction l with
  | nil => intro _ i a; rfl
  | cons t ts ih =>
    intro h i a
    rw [cntP] at h
    by_cases hm : decide (matchEdge e t) = true
    · have hmt : matchEdge e t := of_decide_eq_true hm
      rw [if_pos hm] at h
      have hz : cntP (fun t => decide (matchEdge e t)) ts = 0 := by omega
      have hmt2 : some t.1 = e.previousStateId ∧ some t.2.1 = e.lastEventId := hmt
      simp only [List.foldl_cons, idxStep, if_pos hmt2]
      rw [foldl_idxStep_zero e ts hz (i + 1) ((i : Nat) : Int)]
      simp only [firstMatchIdx, if_pos hm]
      simp
    · have hnm : ¬ matchEdge e t := of_decide_eq_false (by revert hm; cases decide (matchEdge e t) <;> simp)
      have hnm2 : ¬ (some t.1 = e.previousStateId ∧ some t.2.1 = e.lastEventId) := hnm
      rw [if_neg hm, Nat.zero_add] at h
      simp only [List.foldl_cons, idxStep, if_neg hnm2]
      rw [ih h (i + 1) a]
      simp only [firstMatchIdx, if_neg hm]
      cases hf : firstMatchIdx (fun t => decide (matchEdge e t)) ts with
      | none => simp
      | some j =>
        have : i + 1 + j = i + (j + 1) := by omega
        simp [this]

/-- Helper: counting over a concatenation. -/
theorem cntP_append {α : Type} (p : α → Bool) :
    ∀ (l1 l2 : List α), cntP p (l1 ++ l2) = cntP p l1 + cntP p l2 := by
  intro l1 l2
  induction l1 with
  | nil => simp [cntP]
  | cons a l ih =>
    simp only [List.cons_append, cntP, List.append_eq, ih]
    rw [Nat.add_assoc]

/-- Helper: a predicate false on every element counts zero. -/
theorem cntP_zero {α : Type} (p : α → Bool) :
    ∀ l : List α, (∀ x ∈ l, p x = false) → cntP p l = 0 := by
  intro l
  induction l with
  | nil => intro _; rfl
  | cons a l ih =>
    intro h
    have ha := h a (List.mem_cons_self a l)
    have hl := ih (fun x hx => h x (List.mem_cons_of_mem a hx))
    simp [cntP, ha, hl]

/-- Helper: a positive count exhibits a satisfying element. -/
theorem cntP_pos {α : Type} (p : α → Bool) :
    ∀ l : List α, 0 < cntP p l → ∃ x ∈ l, p x = true := by
  intro l
  induction l with
  | nil => intro h; simp [cntP] at h
  | cons a l ih =>
    intro h
    by_cases ha : p a = true
    · exact ⟨a, List.mem_cons_self a l, ha⟩
    · rw [cntP, if_neg ha] at h
      obtain ⟨x, hx, hpx⟩ := ih (by omega)
      exact ⟨x, List.mem_cons_of_mem a hx, hpx⟩

/-- Helper: counting over a mapped list. -/
theorem cntP_map {α β : Type} (p : β → Bool) (f : α → β) :
    ∀ l : List α, cntP p (l.map f) = cntP (fun x => p (f x)) l := by
  intro l
  induction l with
  | nil => rfl
  | cons a l ih => simp [cntP, ih]

/-- Helper: pointwise equal predicates count equally. -/
theorem cntP_congr {α : Type} (p q : α → Bool) :
    ∀ l : List α, (∀ x ∈ l, p x = q x) → cntP p l = cntP q l := by
  intro l
  induction l with
  | nil => intro _; rfl
  | cons a l ih =>
    intro h
    rw [cntP, cntP, h a (List.mem_cons_self a l),
      ih (fun x hx => h x (List.mem_cons_of_mem a hx))]

/-- Helper: in a list of pairs with distinct keys, at most one pair has a
given key. -/
theorem cnt_key_le_one {β : Type} (ev : String) :
    ∀ (m : List (String × β)), (m.map Prod.fst).Nodup →
      cntP (fun q => decide (q.1 = ev)) m ≤ 1 := by
  intro m
  induction m with
  | nil => intro _; simp [cntP]
  | cons q qs ih =>
    intro hnd
    rw [List.map_cons, List.nodup_cons] at hnd
    obtain ⟨hq, hnd2⟩ := hnd
    by_cases hqe : q.1 = ev
    · have hz : cntP (fun r => decide (r.1 = ev)) qs = 0 := by
        apply cntP_zero
        intro r hr
        simp only [decide_eq_false_iff_not]
        intro h2
        exact hq (by rw [show q.1 = r.1 from by rw [hqe, ← h2]]
                     exact List.mem_map.mpr ⟨r, hr, rfl⟩)
      simp [cntP, hqe, hz]
    · simp only [cntP, decide_eq_true_eq, if_neg hqe]
      have := ih hnd2
      omega

/-- Helper: every edge contributed by a state carries that state's key as
its source. -/
theorem mem_edgeOf_fst :
    ∀ (p : String × StateDef) (t : String × String × TransitionDef),
      t ∈ edgeOf p → t.1 = p.1 := by
  intro p t ht
  cases hm : p.2.onMap with
  | none => rw [edgeOf, hm] at ht; simp at ht
  | some m =>
    rw [edgeOf, hm] at ht
    obtain ⟨q, -, hq⟩ := List.mem_map.mp ht
    rw [← hq]

/-- Helper: every enumerated edge's source is one of the state keys. -/
theorem mem_edgeEnum_fst :
    ∀ (sts : List (String × StateDef)) (t : String × String × TransitionDef),
      t ∈ edgeEnum sts → t.1 ∈ sts.map Prod.fst := by
  intro sts t ht
  rw [edgeEnum] at ht
  obtain ⟨l, hl, htl⟩ := List.mem_flatten.mp ht
  obtain ⟨p, hp, hpl⟩ := List.mem_map.mp hl
  rw [← hpl] at htl
  rw [mem_edgeOf_fst p t htl]
  exact List.mem_map.mpr ⟨p, hp, rfl⟩

/-- Helper: no edge matches when `previousStateId` is not among the state
keys. -/
theorem cnt_edgeEnum_zero_of_key_notin :
    ∀ (e : Engine) (sts : List (String × StateDef)) (pid : String),
      e.previousStateId = some pid → pid ∉ sts.map Prod.fst →
      cntP (fun t => decide (matchEdge e t)) (edgeEnum sts) = 0 := by
  intro e sts pid hp hn
  apply cntP_zero
  intro t ht
  simp only [decide_eq_false_iff_not, matchEdge, hp]
  intro hmt
  obtain ⟨h1, -⟩ := hmt
  have h2 : t.1 = pid := by injection h1
  exact hn (h2 ▸ mem_edgeEnum_fst sts t ht)

/-- Helper: at most one edge contributed by a single state matches. -/
theorem cnt_edgeOf_le_one :
    ∀ (e : Engine) (p : String × StateDef),
      (∀ m, p.2.onMap = some m → (m.map Prod.fst).Nodup) →
      cntP (fun t => decide (matchEdge e t)) (edgeOf p) ≤ 1 := by
  intro e p hnd
  cases hm : p.2.onMap with
  | none => rw [edgeOf, hm]; simp [cntP]
  | some m =>
    have hnd2 := hnd m hm
    rw [edgeOf, hm, cntP_map]
    by_cases hp : some p.1 = e.previousStateId
    · cases hl : e.lastEventId with
      | none =>
        have hz : cntP (fun q : String × TransitionDef =>
            decide (matchEdge e (p.1, q.1, q.2))) m = 0 := by
          apply cntP_zero
          intro q _
          simp [matchEdge, hl]
        omega
      | some ev =>
        have hcg : cntP (fun q : String × TransitionDef =>
              decide (matchEdge e (p.1, q.1, q.2))) m =
            cntP (fun q : String × TransitionDef => decide (q.1 = ev)) m := by
          apply cntP_congr
          intro q _
          apply decide_eq_decide.mpr
          simp [matchEdge, hp, hl]
        rw [hcg]
        exact cnt_key_le_one ev m hnd2
    · have hz : cntP (fun q : String × TransitionDef =>
          decide (matchEdge e (p.1, q.1, q.2))) m = 0 := by
        apply cntP_zero
        intro q _
        simp only [decide_eq_false_iff_not, matchEdge]
        intro hmt
        exact hp hmt.1
      omega

/-- Helper: with unique state keys and unique event keys per state, at most
one enumerated edge has source `previousStateId` and event `lastEventId`. -/
theorem cnt_edgeEnum_le_one :
    ∀ (e : Engine) (sts : List (String × StateDef)), wfKeys sts →
      cntP (fun t => decide (matchEdge e t)) (edgeEnum sts) ≤ 1 := by
  intro e sts
  induction sts with
  | nil => intro _; simp [edgeEnum, cntP]
  | cons p ps ih =>
    intro hwf
    obtain ⟨hnd, hon⟩ := hwf
    rw [List.map_cons, List.nodup_cons] at hnd
    obtain ⟨hpnotin, hnd2⟩ := hnd
    have hwf2 : wfKeys ps :=
      ⟨hnd2, fun q hq => hon q (List.mem_cons_of_mem p hq)⟩
    have henum : edgeEnum (p :: ps) = edgeOf p ++ edgeEnum ps := by
      simp [edgeEnum]
    rw [henum, cntP_append]
    have h1 : cntP (fun t => decide (matchEdge e t)) (edgeOf p) ≤ 1 :=
      cnt_edgeOf_le_one e p (hon p (List.mem_cons_self p ps))
    by_cases hz : cntP (fun t => decide (matchEdge e t)) (edgeOf p) = 0
    · have h2 := ih hwf2
      omega
    · obtain ⟨t, ht, hmt⟩ :=
        cntP_pos _ (edgeOf p) (Nat.pos_of_ne_zero hz)
      have ht1 : t.1 = p.1 := mem_edgeOf_fst p t ht
      have hprev : e.previousStateId = some p.1 := by
        obtain ⟨hp1, -⟩ := of_decide_eq_true hmt
        rw [← hp1, ht1]
      have h2 := cnt_edgeEnum_zero_of_key_notin e ps p.1 hprev hpnotin
      omega

/-- Helper: `firstMatchIdx` is `none` exactly when no element satisfies the
predicate. -/
theorem firstMatchIdx_none_iff {α : Type} (p : α → Bool) :
    ∀ l : List α, firstMatchIdx p l = none ↔ ∀ x ∈ l, ¬ p x = true := by
  intro l
  induction l with
  | nil => simp [firstMatchIdx]
  | cons a l ih =>
    by_cases ha : p a = true
    · simp [firstMatchIdx, ha]
    · have hmn : ∀ (o : Option Nat), Option.map (fun n => n + 1) o = none ↔ o = none := by
        intro o; cases o <;> simp
      simp only [firstMatchIdx, if_neg ha]
      rw [hmn, ih]
      constructor
      · intro h x hx
        rcases List.mem_cons.mp hx with h1 | h2
        · rw [h1]; exact ha
        · exact h x h2
      · intro h x hx
        exact h x (List.mem_cons_of_mem a hx)

/-- Helper: a `firstMatchIdx` hit indexes a satisfying element. -/
theorem firstMatchIdx_some {α : Type} (p : α → Bool) :
    ∀ (l : List α) (j : Nat), firstMatchIdx p l = some j →
      ∃ x, l.get? j = some x ∧ p x = true := by
  intro l
  induction l with
  | nil => intro j h; simp [firstMatchIdx] at h
  | cons a l ih =>
    intro j h
    by_cases ha : p a = true
    · rw [firstMatchIdx, if_pos ha] at h
      have hj : j = 0 := by injection h with h2; omega
      subst hj
      exact ⟨a, rfl, ha⟩
    · rw [firstMatchIdx, if_neg ha] at h
      cases hf : firstMatchIdx p l with
      | none => rw [hf] at h; simp at h
      | some j2 =>
        rw [hf] at h
        simp at h
        obtain ⟨x, hx, hpx⟩ := ih j2 hf
        refine ⟨x, ?_, hpx⟩
        rw [← h]
        simpa using hx

/-- Helper: interpolating a natural number cast to `Int` prints the number
itself. -/
theorem toString_intOfNat (j : Nat) : toString ((j : Nat) : Int) = toString j := rfl

/-- C8: with the key uniqueness JavaScript objects guarantee, the generated
diagram is the node-and-edge text followed by a positional `linkStyle`
directive exactly when some enumerated edge has source `previousStateId`
and event `lastEventId`; the directive's index is the zero-based position
of that edge in the insertion-order enumeration. -/
theorem claim8_edge_highlight_index :
    ∀ (e : Engine) (cfg : Config),
      e.config = some cfg →
      wfKeys cfg.states →
      generateMermaid e =
        (mermaidCore e cfg).1 ++ linkSuffix (specActiveIndex e cfg.states) ∧
      (specActiveIndex e cfg.states = none ↔
        ∀ t ∈ edgeEnum cfg.states, ¬ matchEdge e t) ∧
      (∀ j, specActiveIndex e cfg.states = some j →
        ∃ t, (edgeEnum cfg.states).get? j = some t ∧ matchEdge e t) := by
  intro e cfg hc hwf
  have hcnt := cnt_edgeEnum_le_one e cfg.states hwf
  have hflat : (mermaidCore e cfg).2 =
      (edgeEnum cfg.states).foldl (idxStep e)
        (0, -1) := by
    simp only [mermaidCore]
    rw [edgeSection_eq_flat]
    exact foldl_edgeStep_snd e (edgeEnum cfg.states) _ 0 (-1)
  have hact := foldl_idxStep_firstMatch e (edgeEnum cfg.states) hcnt 0 (-1)
  refine ⟨?_, ?_, ?_⟩
  · cases hfmi : specActiveIndex e cfg.states with
    | none =>
      simp only [specActiveIndex] at hfmi
      rw [hfmi] at hact
      have h22 : (mermaidCore e cfg).2.2 = -1 := by rw [hflat, hact]
      simp only [generateMermaid, hc, linkSuffix]
      rw [if_neg (by rw [h22]; simp)]
      simp
    | some j =>
      simp only [specActiveIndex] at hfmi
      rw [hfmi] at hact
      have h22 : (mermaidCore e cfg).2.2 = ((0 + j : Nat) : Int) := by
        rw [hflat, hact]
      simp only [generateMermaid, hc, linkSuffix]
      rw [if_pos (by rw [h22]; omega)]
      rw [h22]
      rw [show ((0 + j : Nat) : Int) = ((j : Nat) : Int) by simp]
      rw [toString_intOfNat]
  · simp only [specActiveIndex]
    rw [firstMatchIdx_none_iff]
    constructor
    · intro h t ht hmt
      exact h t ht (decide_eq_true hmt)
    · intro h t ht
      simp only [decide_eq_true_eq]
      exact h t ht
  · intro j hj
    simp only [specActiveIndex] at hj
    obtain ⟨t, ht, hpt⟩ := firstMatchIdx_some _ (edgeEnum cfg.states) j hj
    exact ⟨t, ht, of_decide_eq_true hpt⟩

/-- Witness for C8: on the `ab` machine after `GO`, the highlighted edge is
the first enumerated edge (`a --GO--> b`, index 0) and the diagram ends with
the directive for index 0. -/
theorem claim8_witness :
    generateMermaid abE1 =
      (mermaidCore abE1 abStoredConfig).1 ++
        linkSuffix (specActiveIndex abE1 abStoredConfig.states) ∧
    (specActiveIndex abE1 abStoredConfig.states = none ↔
      ∀ t ∈ edgeEnum abStoredConfig.states, ¬ matchEdge abE1 t) ∧
    (∀ j, specActiveIndex abE1 abStoredConfig.states = some j →
      ∃ t, (edgeEnum abStoredConfig.states).get? j = some t ∧ matchEdge abE1 t) :=
  claim8_edge_highlight_index abE1 abStoredConfig rfl
    ⟨by decide, by decide⟩

/-- Helper: mutating one store cell leaves every other cell unchanged. -/
theorem rget_rset_ne :
    ∀ (s : Store) (r r2 : Nat) (v : JValue), r ≠ r2 →
      rget (rset s r v) r2 = rget s r2 := by
  intro s r r2 v h
  unfold rget rset
  rw [List.get?_eq_getElem?, List.get?_eq_getElem?, List.getElem?_set_ne h]

/-- Helper: the invariant only constrains references from below, so it is
preserved when the store grows. -/
theorem RefInv_mono :
    ∀ (e : RefEngine) (s s2 : Store), RefInv e s →
      s.objs.length ≤ s2.objs.length → RefInv e s2 := by
  intro e s s2 hinv hle
  obtain ⟨h1, h2, h3⟩ := hinv
  refine ⟨by omega, ?_, h3⟩
  intro en hen
  obtain ⟨ha, hb⟩ := h2 en hen
  exact ⟨by omega, hb⟩

/-- Helper: `recordHistory` in the reference model preserves the heap
invariant — the snapshot it appends is a freshly allocated cell, distinct
from the live context and from every earlier snapshot. -/
theorem RefInv_rrecordHistory :
    ∀ (now : String) (e : RefEngine) (s : Store) (event : String) (input : JValue),
      RefInv e s →
      RefInv (rrecordHistory now e s event input).1
        (rrecordHistory now e s event input).2 := by
  intro now e s event input hinv
  obtain ⟨h1, h2, h3⟩ := hinv
  unfold rrecordHistory ralloc
  refine ⟨?_, ?_, ?_⟩
  · simp
    omega
  · intro en hen
    rcases List.mem_append.mp hen with hold | hnew
    · obtain ⟨ha, hb⟩ := h2 en hold
      constructor
      · simp
        omega
      · exact hb
    · rw [List.mem_singleton.mp hnew]
      constructor
      · simp
      · simp
        omega
  · rw [List.map_append, List.nodup_append]
    refine ⟨h3, List.nodup_singleton _, ?_⟩
    intro x hx hy
    obtain ⟨en, hen, hex⟩ := List.mem_map.mp hx
    have := (h2 en hen).1
    simp at hy
    omega

/-- Counterexample to C2 as stated: the `context` field of the `getState()`
projection is the live context object itself (`context: this.context`,
line 156) — writing through the returned snapshot changes the engine's
live context. -/
theorem claim2_counterexample :
    rget refAb.2 refAb.1.context = JValue.obj [("n", JValue.num 1)] ∧
    (rgetState refAb.1 refAb.2).context = refAb.1.context ∧
    rget (rset refAb.2 (rgetState refAb.1 refAb.2).context (JValue.num 42))
      refAb.1.context = JValue.num 42 :=
  ⟨rfl, rfl, rfl⟩

/-- C2 amended: every context object reachable from `history` is a
structurally independent copy — the heap invariant (live context never
shared with a history snapshot, no two snapshots shared) holds initially
and is preserved by `load`, `send` and `undo`, and mutating a history
snapshot never changes the live context or another entry — but the
`context` field of the `getState()` projection is the live context object
itself, not a copy. -/
theorem claim2_amended_heap_independence :
    (∀ (e : RefEngine) (s : Store), (rgetState e s).context = e.context) ∧
    RefInv initialRefPair.1 initialRefPair.2 ∧
    (∀ (now : String) (e : RefEngine) (s : Store) (config : Option RawConfig),
      RefInv e s →
      RefInv (rload now e s config).1 (rload now e s config).2) ∧
    (∀ (evalAction : String → JValue → JValue → Except String JValue)
       (now : String) (e : RefEngine) (s : Store) (eventId : String)
       (input : JValue),
      RefInv e s →
      RefInv (rsend evalAction now e s eventId input).2.1
        (rsend evalAction now e s eventId input).2.2) ∧
    (∀ (e : RefEngine) (s : Store), RefInv e s →
      RefInv (rundo e s).1 (rundo e s).2) ∧
    (∀ (e : RefEngine) (s : Store) (en : RHistoryEntry) (v : JValue),
      RefInv e s → en ∈ e.history →
      rget (rset s en.context v) e.context = rget s e.context ∧
      (∀ en2 ∈ e.history, en2.context ≠ en.context →
        rget (rset s en.context v) en2.context = rget s en2.context)) := by
  refine ⟨fun e s => rfl, by decide, ?_, ?_, ?_, ?_⟩
  · -- load preserves the invariant
    intro now e s config hinv
    cases config with
    | none => exact hinv
    | some cfg =>
      cases hs : cfg.states with
      | none => simp only [rload, hs]; exact hinv
      | some sts =>
        simp only [rload, hs]
        apply RefInv_rrecordHistory
        refine ⟨?_, ?_, ?_⟩
        · simp [ralloc]
        · intro en hen
          simp at hen
        · simp
  · -- send preserves the invariant
    intro evalAction now e s eventId input hinv
    cases hc : e.config with
    | none => simp only [rsend, hc]; exact hinv
    | some cfg =>
      cases hst : jlookup cfg.states (propKey e.currentStateId) with
      | none => simp only [rsend, hc, hst]; exact hinv
      | some currentState =>
        cases hon : currentState.onMap with
        | none => simp only [rsend, hc, hst, hon]; exact hinv
        | some onM =>
          cases hev : jlookup onM eventId with
          | none => simp only [rsend, hc, hst, hon, hev]; exact hinv
          | some transition =>
            cases ha : transition.action with
            | none =>
              simp only [rsend, hc, hst, hon, hev, ha]
              exact RefInv_rrecordHistory now _ s eventId input hinv
            | some a =>
              simp only [rsend, hc, hst, hon, hev, ha]
              cases hr : evalAction a
                  (rget (ralloc s (deepCopy (rget s e.context))).2
                    (ralloc s (deepCopy (rget s e.context))).1) input with
              | error msg =>
                simp only
                exact RefInv_mono e s _ hinv (by simp [ralloc])
              | ok v =>
                simp only
                apply RefInv_rrecordHistory
                obtain ⟨h1, h2, h3⟩ := hinv
                refine ⟨?_, ?_, h3⟩
                · simp [ralloc, rset]
                · intro en hen
                  obtain ⟨hb1, -⟩ := h2 en hen
                  constructor
                  · simp [ralloc, rset]
                    omega
                  · simp [ralloc]
                    omega
  · -- undo preserves the invariant
    intro e s hinv
    by_cases hlen : e.history.length ≤ 1
    · simp only [rundo, if_pos hlen]
      exact hinv
    · simp only [rundo, if_neg hlen]
      cases hl : e.history.dropLast.getLast? with
      | none => exact hinv
      | some restored =>
        obtain ⟨h1, h2, h3⟩ := hinv
        refine ⟨?_, ?_, ?_⟩
        · simp [ralloc]
        · intro en hen
          have hmem : en ∈ e.history := List.dropLast_subset e.history hen
          obtain ⟨ha, -⟩ := h2 en hmem
          constructor
          · simp [ralloc]
            omega
          · simp [ralloc]
            omega
        · exact h3.sublist ((List.dropLast_sublist e.history).map _)
  · -- mutating a history snapshot is invisible to the live context and to
    -- every other snapshot
    intro e s en v hinv hen
    obtain ⟨-, h2, -⟩ := hinv
    refine ⟨rget_rset_ne s en.context e.context v (h2 en hen).2, ?_⟩
    intro en2 _ hne
    exact rget_rset_ne s en.context en2.context v (fun h => hne h.symm)

/-- Witness for C2 (amended): the invariant holds concretely after loading
the `ab` machine in the reference model, is preserved by a concrete `send`,
and mutating the one history snapshot of the loaded machine does not change
the live context. -/
theorem claim2_witness :
    RefInv (rload "t0" initialRefPair.1 initialRefPair.2 (some abConfig)).1
      (rload "t0" initialRefPair.1 initialRefPair.2 (some abConfig)).2 ∧
    RefInv (rsend evalNone "t1" refAb.1 refAb.2 "GO" (JValue.obj [])).2.1
      (rsend evalNone "t1" refAb.1 refAb.2 "GO" (JValue.obj [])).2.2 ∧
    rget (rset refAb.2 2 (JValue.num 7)) refAb.1.context
      = rget refAb.2 refAb.1.context := by
  refine ⟨?_, ?_, ?_⟩
  · exact (claim2_amended_heap_independence.2.2.1) "t0" initialRefPair.1
      initialRefPair.2 (some abConfig) (by decide)
  · exact (claim2_amended_heap_independence.2.2.2.1) evalNone "t1" refAb.1
      refAb.2 "GO" (JValue.obj []) (by decide)
  · exact ((claim2_amended_heap_independence.2.2.2.2.2) refAb.1 refAb.2
      { timestamp := "t0", state := some "a", event := "Initial State",
        context := 2, input := 3 } (JValue.num 7) (by decide)
      (List.Mem.head _)).1

end SmacViz
